import Mathlib

/-!
Verification of the numerical core of the notebook
`experiments/Reparameterization Trick.ipynb`.

The notebook compares the empirical variance of two Monte Carlo gradient
estimators for the objective E_q[|x|^(1/4)] with q = Normal(theta, 1):

* `grad1` (score-function estimator):
  `lambda x: np.sum((abs(x)**(1/4))*(x-theta)) / x.size`
* `grad2` (reparameterized estimator):
  `lambda eps: np.sum((theta + eps)/(4*abs(theta + eps)**(2-1/4))) / x.size`
  (note: `x` inside `grad2` is the ambient global array, not the parameter)

and then runs, for each sample size `N` in `Ns` and `reps` repetitions, a
trial that draws `x = np.random.randn(N) + theta`, stores `grad1(x)` in
`est1[r]`, draws `eps = np.random.randn(N)`, stores `grad2(eps)` in
`est2[r]`, and finally records `np.mean` / `np.var` of the two buffers.

The embedding models real numbers by `ℝ` (so `a ** b` is `Real.rpow`) and
the process-wide pseudo-random standard-normal source by an explicit
infinite stream `s : ℕ → ℝ` of draws consumed left to right:
`np.random.randn(n)` at stream position `k` yields the values
`s k, s (k+1), ..., s (k+n-1)` and advances the position to `k + n`.
-/

namespace RepTrick

noncomputable section

/-- The values produced by `np.random.randn(n)` when the global
standard-normal stream `s` is at position `k`. -/
def randnList (s : ℕ → ℝ) (k n : ℕ) : List ℝ :=
  (List.range n).map (fun j => s (k + j))

/-- `grad1 = lambda x: np.sum((abs(x)**(1/4))*(x-theta)) / x.size`.
The lambda's parameter `x` shadows the global array, so `x.size` is the
length of the argument; `theta` is the captured (never reassigned) global. -/
def grad1 (theta : ℝ) (x : List ℝ) : ℝ :=
  (x.map (fun v => |v| ^ ((1 : ℝ)/4) * (v - theta))).sum / (x.length : ℝ)

/-- `grad2 = lambda eps: np.sum((theta + eps)/(4*abs(theta + eps)**(2-1/4))) / x.size`.
The lambda has no parameter named `x`, so `x.size` refers to the ambient
global array `x`; `xlen` models that captured global's length. -/
def grad2 (xlen : ℕ) (theta : ℝ) (eps : List ℝ) : ℝ :=
  (eps.map (fun e => (theta + e) / (4 * |theta + e| ^ ((2 : ℝ) - 1/4)))).sum / (xlen : ℝ)

/-- `np.mean` of a 1-d array. -/
def npMean (l : List ℝ) : ℝ := l.sum / (l.length : ℝ)

/-- `np.var` of a 1-d array (numpy default `ddof = 0`, the population
variance: the mean of the squared deviations from the mean). -/
def npVar (l : List ℝ) : ℝ :=
  ((l.map (fun v => (v - npMean l) ^ 2)).sum) / (l.length : ℝ)

/-- The experiment's configuration: the captured global `theta`, the list
`Ns` of sample sizes, and the repetition count `reps`. -/
structure Config where
  theta : ℝ
  Ns : List ℕ
  reps : ℕ

/-- The printed outcome of cell 7: the arrays `means1`, `vars1`, `means2`,
`vars2`, one entry per sample size of `Ns`, in order. -/
structure ExperimentResult where
  means1 : List ℝ
  vars1 : List ℝ
  means2 : List ℝ
  vars2 : List ℝ

/-- One iteration of the inner loop body at stream position `k`:
`x = np.random.randn(N) + theta`, `e1 = grad1(x)`,
`eps = np.random.randn(N)`, `e2 = grad2(eps)` (whose internal `x.size` is
the length of the just-reassigned global `x`).  Returns `((e1, e2), k')`
with `k'` the new stream position. -/
def trial (theta : ℝ) (N : ℕ) (s : ℕ → ℝ) (k : ℕ) : (ℝ × ℝ) × ℕ :=
  ((grad1 theta ((randnList s k N).map (fun e => e + theta)),
    grad2 ((randnList s k N).map (fun e => e + theta)).length theta
      (randnList s (k + N) N)),
   k + 2 * N)

/-- The inner loop `for r in range(reps)` writing `est1[r]` / `est2[r]`:
`r` is the next index to write, `c` the number of iterations left,
the pair of lists the current contents of the buffers `est1` / `est2`,
and `k` the stream position. -/
def innerLoop (theta : ℝ) (N : ℕ) (s : ℕ → ℝ) :
    ℕ → ℕ → List ℝ × List ℝ → ℕ → (List ℝ × List ℝ) × ℕ
  | _, 0, bufs, k => (bufs, k)
  | r, c + 1, bufs, k =>
    innerLoop theta N s (r + 1) c
      (bufs.1.set r (trial theta N s k).1.1, bufs.2.set r (trial theta N s k).1.2)
      (trial theta N s k).2

/-- The outer loop `for i, N in enumerate(Ns)`: runs the inner loop for
each sample size, reusing the buffers, and records
`np.mean` / `np.var` of each buffer. -/
def outerLoop (theta : ℝ) (reps : ℕ) (s : ℕ → ℝ) :
    List ℕ → List ℝ × List ℝ → ℕ → ExperimentResult
  | [], _, _ => ⟨[], [], [], []⟩
  | N :: rest, bufs, k =>
    let step := innerLoop theta N s 0 reps bufs k
    let res := outerLoop theta reps s rest step.1 step.2
    ⟨npMean step.1.1 :: res.means1, npVar step.1.1 :: res.vars1,
     npMean step.1.2 :: res.means2, npVar step.1.2 :: res.vars2⟩

/-- The whole of cell 7: allocate `est1 = np.zeros(reps)`,
`est2 = np.zeros(reps)` once, then run the loops from stream position 0. -/
def runCore (cfg : Config) (s : ℕ → ℝ) : ExperimentResult :=
  outerLoop cfg.theta cfg.reps s cfg.Ns
    (List.replicate cfg.reps 0, List.replicate cfg.reps 0) 0

/-- The spec's error taxonomy for `run`. -/
inductive ConfigError where
  | invalidConfiguration
  deriving DecidableEq

/-- `run` as surfaced to the caller.  The notebook's cell-7 script contains
no configuration validation and, for natural-number sample sizes and
repetition counts, raises no exception on any input (empty `Ns` skips the
loop; `reps = 0` or `N = 0` proceed through numpy's silent degenerate
arithmetic), so the faithful translation always returns `Except.ok`. -/
def run (cfg : Config) (s : ℕ → ℝ) : Except ConfigError ExperimentResult :=
  Except.ok (runCore cfg s)

/-! ### Spec-side definitions

These follow the wording of the specification (section 4.1), to be compared
with the definitions above, which are translated from the notebook. -/

/-- The spec's `score_function_estimator(samples, theta)`:
`(1/N) Σ f(x_i) · (x_i − theta)` with the implemented integrand
`f(x) = |x|^(1/4)` and `N` the number of samples. -/
def sfEstimatorSpec (theta : ℝ) (samples : List ℝ) : ℝ :=
  (1 / (samples.length : ℝ)) *
    (samples.map (fun v => |v| ^ ((1 : ℝ)/4) * (v - theta))).sum

/-- The spec's `reparameterized_estimator(epsilons, theta)`:
`(1/N) Σ g(theta + ε)` with the implemented power-law derivative
`g(y) = y / (4 · |y|^(2 − 1/4))` and `N` the number of epsilons. -/
def repEstimatorSpec (theta : ℝ) (eps : List ℝ) : ℝ :=
  (1 / (eps.length : ℝ)) *
    (eps.map (fun e => (theta + e) / (4 * |theta + e| ^ ((2 : ℝ) - 1/4)))).sum

/-- The list of `(est1, est2)` values produced by `c` successive iterations
of the inner loop body starting at stream position `k`. -/
def trialList (theta : ℝ) (N : ℕ) (s : ℕ → ℝ) : ℕ → ℕ → List (ℝ × ℝ)
  | _, 0 => []
  | k, c + 1 => (trial theta N s k).1 :: trialList theta N s (trial theta N s k).2 c

/-- The spec's description of one sample size's trials: repeat `c` times
"draw `N` fresh standard-normal variates twice (once shifted by theta for
the score-function path, once unshifted for the reparameterized path —
independent draws, not shared noise), compute both estimators". -/
def specTrials (theta : ℝ) (N : ℕ) (s : ℕ → ℝ) : ℕ → ℕ → List (ℝ × ℝ)
  | _, 0 => []
  | k, c + 1 =>
    (sfEstimatorSpec theta ((randnList s k N).map (fun e => e + theta)),
     repEstimatorSpec theta (randnList s (k + N) N)) ::
      specTrials theta N s (k + 2 * N) c

/-- The spec's `run`, per sample size: run the trials, then record the
sample mean and (population) sample variance of each estimator's trial
values, keyed by the sample size's position. -/
def outerSpec (theta : ℝ) (reps : ℕ) (s : ℕ → ℝ) : List ℕ → ℕ → ExperimentResult
  | [], _ => ⟨[], [], [], []⟩
  | N :: rest, k =>
    let tr := specTrials theta N s k reps
    let res := outerSpec theta reps s rest (k + 2 * N * reps)
    ⟨npMean (tr.map Prod.fst) :: res.means1, npVar (tr.map Prod.fst) :: res.vars1,
     npMean (tr.map Prod.snd) :: res.means2, npVar (tr.map Prod.snd) :: res.vars2⟩

/-- The spec's `run(config)`, consuming the normal stream from position 0. -/
def runSpec (cfg : Config) (s : ℕ → ℝ) : ExperimentResult :=
  outerSpec cfg.theta cfg.reps s cfg.Ns 0

/-- Number of standard-normal draws `run` consumes: `2·N·reps` per sample
size `N` (each trial draws `N` for `x` and `N` for `eps`). -/
def drawCount (reps : ℕ) : List ℕ → ℕ
  | [] => 0
  | N :: rest => 2 * N * reps + drawCount reps rest

end

/-! ### Basic lemmas -/

theorem randnList_length (s : ℕ → ℝ) (k n : ℕ) : (randnList s k n).length = n := by
  simp [randnList]

theorem grad1_eq_sfSpec (theta : ℝ) (l : List ℝ) :
    grad1 theta l = sfEstimatorSpec theta l := by
  unfold grad1 sfEstimatorSpec
  ring

theorem grad2_len_eq_repSpec (theta : ℝ) (eps : List ℝ) :
    grad2 eps.length theta eps = repEstimatorSpec theta eps := by
  unfold grad2 repEstimatorSpec
  ring

theorem take_set_succ {α : Type} (l : List α) (r : ℕ) (v : α) (h : r < l.length) :
    (l.set r v).take (r + 1) = l.take r ++ [v] := by
  induction l generalizing r with
  | nil => simp at h
  | cons a as ih =>
    cases r with
    | zero => simp
    | succ r =>
      simp only [List.set, List.take, List.cons_append]
      rw [ih r (by simpa using h)]

theorem trialList_length (theta : ℝ) (N : ℕ) (s : ℕ → ℝ) (k c : ℕ) :
    (trialList theta N s k c).length = c := by
  induction c generalizing k with
  | zero => rfl
  | succ c ih => simp [trialList, ih]

theorem trial_snd (theta : ℝ) (N : ℕ) (s : ℕ → ℝ) (k : ℕ) :
    (trial theta N s k).2 = k + 2 * N := rfl

/-- Characterization of the inner loop: starting at write index `r` with
`c` iterations left over buffers of length `r + c`, it leaves the first `r`
buffer entries alone, overwrites the rest with this run's trial values, and
advances the stream by `2·N·c`. -/
theorem innerLoop_spec (theta : ℝ) (N : ℕ) (s : ℕ → ℝ) :
    ∀ (c r : ℕ) (b1 b2 : List ℝ) (k : ℕ),
      r + c = b1.length → r + c = b2.length →
      innerLoop theta N s r c (b1, b2) k =
        ((b1.take r ++ (trialList theta N s k c).map Prod.fst,
          b2.take r ++ (trialList theta N s k c).map Prod.snd), k + 2 * N * c) := by
  intro c
  induction c with
  | zero =>
    intro r b1 b2 k h1 h2
    simp only [innerLoop, trialList, List.map_nil, List.append_nil, Nat.mul_zero,
      Nat.add_zero]
    rw [List.take_of_length_le (by omega), List.take_of_length_le (by omega)]
  | succ c ih =>
    intro r b1 b2 k h1 h2
    have hr1 : r < b1.length := by omega
    have hr2 : r < b2.length := by omega
    simp only [innerLoop]
    rw [ih (r + 1) _ _ _ (by simp; omega) (by simp; omega)]
    simp only [trialList, List.map_cons]
    rw [take_set_succ b1 r _ hr1, take_set_succ b2 r _ hr2]
    simp only [trial_snd, List.append_assoc, List.singleton_append]
    have harith : k + 2 * N + 2 * N * c = k + 2 * N * (c + 1) := by ring
    rw [harith]

theorem innerLoop_snd (theta : ℝ) (N : ℕ) (s : ℕ → ℝ) :
    ∀ (c r : ℕ) (b : List ℝ × List ℝ) (k : ℕ),
      (innerLoop theta N s r c b k).2 = k + 2 * N * c := by
  intro c
  induction c with
  | zero => intro r b k; simp [innerLoop]
  | succ c ih =>
    intro r b k
    simp only [innerLoop]
    rw [ih, trial_snd]
    ring

/-- The estimator pair computed by one loop iteration is exactly the spec's
pair of estimators on the trial's own fresh draws. -/
theorem trial_fst_eq_spec (theta : ℝ) (N : ℕ) (s : ℕ → ℝ) (k : ℕ) :
    (trial theta N s k).1 =
      (sfEstimatorSpec theta ((randnList s k N).map (fun e => e + theta)),
       repEstimatorSpec theta (randnList s (k + N) N)) := by
  unfold trial
  have hlen : ((randnList s k N).map (fun e => e + theta)).length =
      (randnList s (k + N) N).length := by
    simp [randnList_length]
  rw [grad1_eq_sfSpec, hlen, grad2_len_eq_repSpec]

theorem trialList_eq_specTrials (theta : ℝ) (N : ℕ) (s : ℕ → ℝ) :
    ∀ (c k : ℕ), trialList theta N s k c = specTrials theta N s k c := by
  intro c
  induction c with
  | zero => intro k; rfl
  | succ c ih =>
    intro k
    simp only [trialList, specTrials, trial_snd, trial_fst_eq_spec]
    rw [ih]

theorem outerLoop_eq_outerSpec (theta : ℝ) (reps : ℕ) (s : ℕ → ℝ) :
    ∀ (Ns : List ℕ) (b1 b2 : List ℝ) (k : ℕ),
      b1.length = reps → b2.length = reps →
      outerLoop theta reps s Ns (b1, b2) k = outerSpec theta reps s Ns k := by
  intro Ns
  induction Ns with
  | nil => intro b1 b2 k h1 h2; rfl
  | cons N rest ih =>
    intro b1 b2 k h1 h2
    simp only [outerLoop, outerSpec]
    rw [innerLoop_spec theta N s reps 0 b1 b2 k (by omega) (by omega)]
    simp only [List.take_zero, List.nil_append]
    rw [trialList_eq_specTrials]
    rw [ih _ _ _ (by simp [← trialList_eq_specTrials, trialList_length])
      (by simp [← trialList_eq_specTrials, trialList_length])]

theorem randnList_congr (s1 s2 : ℕ → ℝ) (k n : ℕ)
    (h : ∀ i, k ≤ i → i < k + n → s1 i = s2 i) :
    randnList s1 k n = randnList s2 k n := by
  unfold randnList
  apply List.map_congr_left
  intro j hj
  have hjn : j < n := List.mem_range.mp hj
  exact h (k + j) (Nat.le_add_right _ _) (by omega)

theorem trial_congr (theta : ℝ) (N : ℕ) (s1 s2 : ℕ → ℝ) (k : ℕ)
    (h : ∀ i, k ≤ i → i < k + 2 * N → s1 i = s2 i) :
    trial theta N s1 k = trial theta N s2 k := by
  unfold trial
  rw [randnList_congr s1 s2 k N (fun i h1 h2 => h i h1 (by omega)),
    randnList_congr s1 s2 (k + N) N (fun i h1 h2 => h i (by omega) (by omega))]

theorem innerLoop_congr (theta : ℝ) (N : ℕ) (s1 s2 : ℕ → ℝ) :
    ∀ (c r : ℕ) (b : List ℝ × List ℝ) (k : ℕ),
      (∀ i, k ≤ i → i < k + 2 * N * c → s1 i = s2 i) →
      innerLoop theta N s1 r c b k = innerLoop theta N s2 r c b k := by
  intro c
  induction c with
  | zero => intro r b k _; rfl
  | succ c ih =>
    intro r b k h
    have hsplit : 2 * N * (c + 1) = 2 * N + 2 * N * c := by ring
    rw [hsplit] at h
    have ht : trial theta N s1 k = trial theta N s2 k :=
      trial_congr theta N s1 s2 k (fun i h1 h2 =>
        h i h1 (lt_of_lt_of_le h2 (Nat.add_le_add_left (Nat.le_add_right _ _) k)))
    simp only [innerLoop]
    rw [ht, trial_snd]
    exact ih (r + 1) _ (k + 2 * N) (fun i h1 h2 =>
      h i (le_trans (Nat.le_add_right k (2 * N)) h1)
        (lt_of_lt_of_le h2 (Nat.add_assoc k _ _).le))

theorem outerLoop_congr (theta : ℝ) (reps : ℕ) (s1 s2 : ℕ → ℝ) :
    ∀ (Ns : List ℕ) (b : List ℝ × List ℝ) (k : ℕ),
      (∀ i, k ≤ i → i < k + drawCount reps Ns → s1 i = s2 i) →
      outerLoop theta reps s1 Ns b k = outerLoop theta reps s2 Ns b k := by
  intro Ns
  induction Ns with
  | nil => intro b k _; rfl
  | cons N rest ih =>
    intro b k h
    simp only [drawCount] at h
    have hstep : innerLoop theta N s1 0 reps b k = innerLoop theta N s2 0 reps b k :=
      innerLoop_congr theta N s1 s2 reps 0 b k (fun i h1 h2 =>
        h i h1 (lt_of_lt_of_le h2 (Nat.add_le_add_left (Nat.le_add_right _ _) k)))
    simp only [outerLoop]
    rw [hstep]
    have hres : outerLoop theta reps s1 rest (innerLoop theta N s2 0 reps b k).1
          (innerLoop theta N s2 0 reps b k).2 =
        outerLoop theta reps s2 rest (innerLoop theta N s2 0 reps b k).1
          (innerLoop theta N s2 0 reps b k).2 := by
      rw [innerLoop_snd]
      exact ih _ _ (fun i h1 h2 =>
        h i (le_trans (Nat.le_add_right k (2 * N * reps)) h1)
          (lt_of_lt_of_le h2 (Nat.add_assoc k _ _).le))
    rw [hres]

theorem npVar_singleton (v : ℝ) : npVar [v] = 0 := by
  simp [npVar, npMean]

/-! ### Claims -/

/-- Claim C1, counterexample: the configuration with empty `sample_sizes`
(and `repetitions = 5`) is invalid per the claim, yet `run` does not fail
with an `InvalidConfiguration` error: the cell-7 script has no validation
at all, so the caller receives an ordinary (here empty) result. -/
theorem c1_counterexample :
    run ⟨0, [], 5⟩ (fun _ => 0) = Except.ok ⟨[], [], [], []⟩ ∧
    run ⟨0, [], 5⟩ (fun _ => 0) ≠ Except.error ConfigError.invalidConfiguration := by
  exact ⟨rfl, by simp [run]⟩

/-- Claim C1, amended: `run` performs no configuration validation and never
surfaces an `InvalidConfiguration` error; for every configuration (valid or
not) it proceeds straight to the sampling loop and returns a result — in
particular, an empty `sample_sizes` list yields the empty result. -/
theorem c1_run_never_reports_invalid_configuration (cfg : Config) (s : ℕ → ℝ) :
    (run cfg s).isOk = true ∧
    run ⟨cfg.theta, [], cfg.reps⟩ s = Except.ok ⟨[], [], [], []⟩ :=
  ⟨rfl, rfl⟩

/-- Claim C2, counterexample: when the ambient global array `x` has length
2 while `epsilons = [9/10]` has length 1 (any state with
`x.size ≠ len(epsilons)`, e.g. calling `grad2` by hand after cell 6 where
`x.size = 1000`), `grad2(epsilons)` is not `(1/N) Σ g(theta + ε_i)` with
`N = len(epsilons)`: at `theta = 1/10` it returns 1/8 instead of 1/4. -/
theorem c2_counterexample :
    grad2 2 (1/10) [9/10] ≠ repEstimatorSpec (1/10) [9/10] := by
  have h1 : (1/10 : ℝ) + 9/10 = 1 := by norm_num
  simp only [grad2, repEstimatorSpec, List.map_cons, List.map_nil, List.sum_cons,
    List.sum_nil, List.length_cons, List.length_nil, h1, abs_one, Real.one_rpow]
  norm_num

/-- Claim C2, amended: `reparameterized_estimator(epsilons, theta)` returns
`(1/N) Σ g(theta + ε_i)` (with `g(y) = y / (4·|y|^(2−1/4))` and
`N = len(epsilons) ≥ 1`) provided the ambient global array `x` has length
`N` — the precondition the experiment loop always establishes. -/
theorem c2_reparameterized_estimator_correct_when_x_matches (theta : ℝ)
    (eps : List ℝ) (h : 1 ≤ eps.length) :
    grad2 eps.length theta eps = repEstimatorSpec theta eps :=
  grad2_len_eq_repSpec theta eps

/-- Claim C2, witness for the amended theorem at `epsilons = [0]`. -/
theorem c2_amended_witness :
    1 ≤ ([(0 : ℝ)]).length ∧
    grad2 ([(0 : ℝ)]).length 0 [0] = repEstimatorSpec 0 [0] :=
  ⟨by simp, c2_reparameterized_estimator_correct_when_x_matches 0 [0] (by simp)⟩

/-- Claim C3: `score_function_estimator(samples, theta)` (the notebook's
`grad1`) returns `(1/N) Σ f(samples_i)·(samples_i − theta)` with
`f(x) = |x|^(1/4)` and `N = len(samples) ≥ 1`; `grad1` normalizes by the
length of its own argument (the lambda parameter `x` shadows the global). -/
theorem c3_score_function_estimator_correct (theta : ℝ) (samples : List ℝ)
    (h : 1 ≤ samples.length) :
    grad1 theta samples = sfEstimatorSpec theta samples :=
  grad1_eq_sfSpec theta samples

/-- Claim C3, witness at `samples = [1]`, `theta = 0`. -/
theorem c3_witness :
    1 ≤ ([(1 : ℝ)]).length ∧ grad1 0 [1] = sfEstimatorSpec 0 [1] :=
  ⟨by simp, c3_score_function_estimator_correct 0 [1] (by simp)⟩

/-- Claim C4: `run` executes exactly the algorithm the spec describes: for
each sample size `N`, `repetitions` trials, each drawing `N` fresh
theta-shifted variates for the score-function estimator and then `N` fresh
unshifted variates for the reparameterized estimator (disjoint, never
shared stream segments), evaluating both estimators on their own draws,
and afterwards recording the mean and the variance of each estimator's
trial values, keyed (positionally) by `N`. -/
theorem c4_run_follows_spec_algorithm (cfg : Config) (s : ℕ → ℝ) :
    runCore cfg s = runSpec cfg s := by
  unfold runCore runSpec
  exact outerLoop_eq_outerSpec cfg.theta cfg.reps s cfg.Ns _ _ 0 (by simp) (by simp)

/-- Claim C5: the aggregated mean (`np.mean`) and variance (`np.var`) of a
list of trial values are invariant under any permutation of the order in
which the trials were produced. -/
theorem c5_aggregation_permutation_invariant (l1 l2 : List ℝ) (h : l1.Perm l2) :
    npMean l1 = npMean l2 ∧ npVar l1 = npVar l2 := by
  have hm : npMean l1 = npMean l2 := by
    unfold npMean
    rw [h.sum_eq, h.length_eq]
  refine ⟨hm, ?_⟩
  unfold npVar
  rw [h.length_eq, hm, (h.map (fun v => (v - npMean l2) ^ 2)).sum_eq]

/-- Claim C5, witness on the reordering `[1, 2] ~ [2, 1]`. -/
theorem c5_witness :
    npMean [(1 : ℝ), 2] = npMean [2, 1] ∧ npVar [(1 : ℝ), 2] = npVar [2, 1] :=
  c5_aggregation_permutation_invariant [1, 2] [2, 1] (List.Perm.swap 2 1 [])

/-- Claim C6: for the boundary configuration `sample_sizes = [1]`,
`repetitions = 1`, `run` completes (every step is defined, for every theta
and every stream) and both reported variances are exactly the degenerate
zero variance of a single trial value. -/
theorem c6_boundary_single_trial_zero_variance (theta : ℝ) (s : ℕ → ℝ) :
    (runCore ⟨theta, [1], 1⟩ s).vars1 = [0] ∧
    (runCore ⟨theta, [1], 1⟩ s).vars2 = [0] ∧
    (runCore ⟨theta, [1], 1⟩ s).means1.length = 1 ∧
    (runCore ⟨theta, [1], 1⟩ s).means2.length = 1 := by
  have h := innerLoop_spec theta 1 s 1 0 (List.replicate 1 0) (List.replicate 1 0) 0
    (by simp) (by simp)
  unfold runCore
  simp only [outerLoop, h, trialList, trial_snd, List.take_zero, List.nil_append,
    List.map_cons, List.map_nil, npVar_singleton, List.length_cons, List.length_nil]
  exact ⟨trivial, trivial, trivial, trivial⟩

/-- Claim C7: `runCore` is a pure function of the configuration and of the
finite prefix of the pseudo-random stream it consumes (`2·reps·N` draws per
sample size `N`): two invocations whose streams agree on that prefix — in
particular two invocations under the same fixed seed, whose streams agree
everywhere — produce identical `ExperimentResult`s. -/
theorem c7_run_deterministic (cfg : Config) (s1 s2 : ℕ → ℝ)
    (h : ∀ i, i < drawCount cfg.reps cfg.Ns → s1 i = s2 i) :
    runCore cfg s1 = runCore cfg s2 := by
  unfold runCore
  exact outerLoop_congr cfg.theta cfg.reps s1 s2 cfg.Ns _ 0
    (fun i _ h2 => h i (by simpa using h2))

/-- Claim C7, witness: two streams that agree on the two consumed draws
(but differ beyond them) give identical results. -/
theorem c7_witness :
    runCore ⟨0, [1], 1⟩ (fun i => if i < 2 then (1 : ℝ) else 0) =
      runCore ⟨0, [1], 1⟩ (fun i => if i < 2 then (1 : ℝ) else 5) :=
  c7_run_deterministic ⟨0, [1], 1⟩ _ _ (by
    intro i hi
    simp only [drawCount] at hi
    have h2 : i < 2 := by omega
    simp [h2])

/-- Claim C8, counterexample: at the degenerate input where every sample
equals theta (here `samples = [1, 1]`, `theta = 1`), the score-function
estimator is neither undefined nor NaN: each summand carries the exact
factor `samples_i − theta = 0`, the divisor `len(samples) = 2` is nonzero,
so no degenerate floating-point operation occurs and the result is the
well-defined value 0 (in IEEE arithmetic as in the real-number model). -/
theorem c8_counterexample :
    grad1 1 [1, 1] = 0 ∧ ((([(1 : ℝ), 1]).length : ℝ) ≠ 0) :=
  ⟨by simp [grad1], by simp⟩

/-- Claim C8, amended: whenever all `n ≥ 1` samples coincide with theta,
`score_function_estimator` returns exactly 0 (a defined value, not NaN):
every term of the sum has the factor `x_i − theta = 0` and the divisor `n`
is positive. -/
theorem c8_degenerate_input_gives_zero (theta : ℝ) (n : ℕ) (h : 1 ≤ n) :
    grad1 theta (List.replicate n theta) = 0 := by
  unfold grad1
  have hm : (List.replicate n theta).map
      (fun v => |v| ^ ((1 : ℝ)/4) * (v - theta)) = List.replicate n 0 := by
    simp [List.map_replicate]
  rw [hm]
  simp [List.sum_replicate]

/-- Claim C8, witness for the amended theorem at `n = 2`, `theta = 1`. -/
theorem c8_amended_witness :
    1 ≤ 2 ∧ grad1 1 (List.replicate 2 1) = 0 :=
  ⟨by norm_num, c8_degenerate_input_gives_zero 1 2 (by norm_num)⟩

/-- Claim C9: `grad2` normalizes by the length of the ambient global array
`x`, not by the length of its own `eps` argument (first conjunct); it
coincides with the spec's `(1/N) Σ g(theta + ε_i)` exactly when the
ambient length equals `len(eps)` (second conjunct); and inside the
experiment loop that precondition always holds, because `x` is reassigned
to a fresh length-`N` array immediately before each `grad2` call, so the
trial's stored `est2` value is the spec estimator on the trial's own fresh
epsilon draws (third conjunct). -/
theorem c9_grad2_normalizes_by_global_x (xlen : ℕ) (theta : ℝ) (eps : List ℝ)
    (N : ℕ) (s : ℕ → ℝ) (k : ℕ) :
    grad2 xlen theta eps =
      (eps.map (fun e => (theta + e) / (4 * |theta + e| ^ ((2 : ℝ) - 1/4)))).sum
        / (xlen : ℝ) ∧
    grad2 eps.length theta eps = repEstimatorSpec theta eps ∧
    (trial theta N s k).1.2 = repEstimatorSpec theta (randnList s (k + N) N) := by
  refine ⟨rfl, grad2_len_eq_repSpec theta eps, ?_⟩
  rw [trial_fst_eq_spec]

/-- Claim C10: although the buffers `est1` / `est2` are reused across
sample sizes, one full pass of the inner loop overwrites every one of
their `reps` entries, so the buffers after the pass — and hence the mean
and variance recorded for this sample size — are exactly this sample
size's trial values, independent of whatever the buffers held before. -/
theorem c10_buffers_fully_overwritten (theta : ℝ) (N : ℕ) (s : ℕ → ℝ)
    (k reps : ℕ) (b1 b2 : List ℝ)
    (h1 : b1.length = reps) (h2 : b2.length = reps) :
    innerLoop theta N s 0 reps (b1, b2) k =
      (((trialList theta N s k reps).map Prod.fst,
        (trialList theta N s k reps).map Prod.snd), k + 2 * N * reps) := by
  rw [innerLoop_spec theta N s reps 0 b1 b2 k (by omega) (by omega)]
  simp

/-- Claim C10, witness: stale buffers `[5]` and `[7]` are fully
overwritten by a one-repetition pass. -/
theorem c10_witness :
    ([(5 : ℝ)]).length = 1 ∧ ([(7 : ℝ)]).length = 1 ∧
    innerLoop 0 1 (fun _ => 0) 0 1 ([5], [7]) 0 =
      (((trialList 0 1 (fun _ => 0) 0 1).map Prod.fst,
        (trialList 0 1 (fun _ => 0) 0 1).map Prod.snd), 2) :=
  ⟨by simp, by simp,
    c10_buffers_fully_overwritten 0 1 (fun _ => 0) 0 1 [5] [7] (by simp) (by simp)⟩

end RepTrick
